import Mathlib

/-!
Verification of the `lines-of-symmetry` repository (src/symmetry.py).

The Python code computes lines of reflective symmetry of a finite set of
2-D points using Python `Decimal` arithmetic.  We shallowly embed the
program at two levels of numeric fidelity.

Exact model (`DecQ`, `Point`, `Line`, ...).  A `Decimal` is an exact
rational or the quiet-NaN sentinel the code uses for unset `Line` fields;
arithmetic is exact and NaN-propagating, `==` on a NaN operand is false,
and `normalize` is value-preserving.  This idealization erases context
rounding, so it serves only the claims whose truth does not depend on
rounding: the constructor length check (C2), equality/hash structure
(C3, C4), the `contains_point` formula and its NaN behaviour (C6), and
candidate deduplication (C8).

Rounded model (`RD`, `RPoint`, `RLine`, operations prefixed `r`).  A
finite `Decimal` is a signed mantissa with an exponent (value
`m * 10 ^ e`); every arithmetic operation rounds its exact result to the
context precision `P` significant digits (half-even, the default
rounding), division is correctly rounded, `==` compares numeric values
exactly, and `normalize` rounds to `P - 1` digits before comparison.
The rounding-sensitive claims about folding, round-trips and centroid
containment (C1, C5, C7, C10) are settled against this model.

The representation-level behaviour of `normalize` itself (rounding to
`precision - 1` significant digits and stripping trailing zeros) is
modelled on `DecFin` for claim C9.
-/

namespace Symmetry

/-- A Python `Decimal` as used by the geometry: NaN sentinel or exact value. -/
inductive DecQ where
  | nan : DecQ
  | fin : ℚ → DecQ
deriving DecidableEq, Repr

/-- `Decimal` addition: NaN-propagating, otherwise exact.  (Real
`Decimal` arithmetic rounds every result to the context precision; this
exact idealization serves only the rounding-independent claims.  The
rounded model `rdAdd` below carries the rounding.) -/
def dadd : DecQ → DecQ → DecQ
  | .fin a, .fin b => .fin (a + b)
  | _, _ => .nan

/-- `Decimal` subtraction: NaN-propagating, otherwise exact (rounded
counterpart: `rdSub`). -/
def dsub : DecQ → DecQ → DecQ
  | .fin a, .fin b => .fin (a - b)
  | _, _ => .nan

/-- `Decimal` multiplication: NaN-propagating, otherwise exact (rounded
counterpart: `rdMul`). -/
def dmul : DecQ → DecQ → DecQ
  | .fin a, .fin b => .fin (a * b)
  | _, _ => .nan

/-- `Decimal` division: NaN-propagating and exact here (real `Decimal`
division rounds; rounded counterpart: `rdDiv`).  Division by zero raises
`DivisionByZero` in Python; every call site in the source guards the
divisor, so the embedding returns the sentinel on that dead branch. -/
def ddiv : DecQ → DecQ → DecQ
  | .fin a, .fin b => if b = 0 then .nan else .fin (a / b)
  | _, _ => .nan

/-- Python `==` on `Decimal`s: `false` if either operand is NaN, numeric
equality otherwise.  `normalize` is value-preserving in this exact
embedding, so `normalize(a) == normalize(b)` is `deq a b`; the rounded
model distinguishes raw `rdEq` from normalized `rdNormEq`. -/
def deq : DecQ → DecQ → Bool
  | .fin a, .fin b => a == b
  | _, _ => false

/-- `Decimal.is_nan()`. -/
def dIsNan : DecQ → Bool
  | .nan => true
  | .fin _ => false

/-- `not d.is_nan()`: the value is a finite number. -/
def isFin (d : DecQ) : Bool := !dIsNan d

/-- `Point` from src/symmetry.py: an immutable 2-D coordinate pair. -/
structure Point where
  x : DecQ
  y : DecQ
deriving DecidableEq, Repr

/-- `Point.__eq__`: `normalize(self.x) == normalize(other.x) and
normalize(self.y) == normalize(other.y)`. -/
def pointEq (p q : Point) : Bool := deq p.x q.x && deq p.y q.y

/-- `Point.__hash__` is `hash((normalize(x), normalize(y)))`; Python's
`hash` on `Decimal` is a function of the numeric value, so the hash is
modelled by the key the hash is computed from.  Hashing a NaN `Decimal`
raises `TypeError` in Python, modelled as `none`. -/
def pointHashKey (p : Point) : Option (ℚ × ℚ) :=
  match p.x, p.y with
  | .fin a, .fin b => some (a, b)
  | _, _ => none

/-- `Line` from src/symmetry.py: a single record carrying `slope`,
`intercept` and `x`, with `Decimal("nan")` sentinels in unused fields
(each constructor argument defaults to `Decimal("nan")`). -/
structure Line where
  slope : DecQ
  intercept : DecQ
  x : DecQ
deriving DecidableEq, Repr

/-- `Line.is_vertical`: `slope.is_nan() or intercept.is_nan()`. -/
def isVertical (L : Line) : Bool := dIsNan L.slope || dIsNan L.intercept

/-- `Line.is_horizontal`: `slope == 0`. -/
def isHorizontal (L : Line) : Bool := deq L.slope (.fin 0)

/-- `Line.__eq__`: if both lines are vertical, `not self.x.is_nan() and
normalize(self.x) == normalize(other.x)`; otherwise compare normalized
slope and intercept. -/
def lineEq (a b : Line) : Bool :=
  if isVertical a && isVertical b then !dIsNan a.x && deq a.x b.x
  else deq a.slope b.slope && deq a.intercept b.intercept

/-- One component of `Line.__hash__`'s key: `normalize(field)` when the
field is not NaN, else the string `"nan"` (modelled as `none`). -/
def hcomp : DecQ → Option ℚ
  | .nan => none
  | .fin q => some q

/-- `Line.__hash__` is `hash((s, i, x))` over the three components; as for
points, the hash is modelled by the key tuple it is computed from. -/
def lineHashKey (L : Line) : Option ℚ × Option ℚ × Option ℚ :=
  (hcomp L.slope, hcomp L.intercept, hcomp L.x)

/-- `Line.from_points(p0, p1)`.  Note the Python guard is `den != 0`,
which is `True` when `den` is NaN (so NaN coordinates fall into the sloped
branch and produce NaN slope/intercept, exactly as `Decimal` does). -/
def fromPoints (p0 p1 : Point) : Line :=
  let den := dsub p1.x p0.x
  if !deq den (.fin 0) then
    let slope := ddiv (dsub p1.y p0.y) den
    ⟨slope, dsub p1.y (dmul slope p1.x), .nan⟩
  else
    ⟨.nan, .nan, p1.x⟩

/-- `Line.contains_point(p0)`: `p0.y == (p0.x * self.slope) + self.intercept`. -/
def containsPoint (L : Line) (p0 : Point) : Bool :=
  deq p0.y (dadd (dmul p0.x L.slope) L.intercept)

/-- `Line.perpendicular_intersection_point(p0)`. -/
def perpendicularIntersectionPoint (L : Line) (p0 : Point) : Point :=
  if isVertical L then ⟨L.x, p0.y⟩
  else if isHorizontal L then ⟨p0.x, L.intercept⟩
  else
    let x := dmul (ddiv L.slope (dadd (dmul L.slope L.slope) (.fin 1)))
                  (dsub (dadd p0.y (ddiv p0.x L.slope)) L.intercept)
    ⟨x, dadd (dmul L.slope x) L.intercept⟩

/-- `Line.folded_point(p0)`: the reflection of `p0` across the line,
returning `p0` unchanged when `contains_point(p0)` holds. -/
def foldedPoint (L : Line) (p0 : Point) : Point :=
  if containsPoint L p0 then p0
  else
    let pInt := perpendicularIntersectionPoint L p0
    ⟨dsub (dmul (.fin 2) pInt.x) p0.x, dsub (dmul (.fin 2) pInt.y) p0.y⟩

/-- `Line.is_symmetry_line(points)`: every point must fold onto itself or
onto some point of the list (the inner scan is `points[i2] == f1`). -/
def isSymmetryLine (L : Line) (points : List Point) : Bool :=
  points.all fun p =>
    let f := foldedPoint L p
    pointEq f p || points.any fun q => pointEq q f

/-- `BisectionPoint(p0, p1)`: coordinates
`((p1.x - p0.x)/2 + p0.x, (p1.y - p0.y)/2 + p0.y)`; the retained parent
references do not participate in equality and are not modelled. -/
def bisectionPoint (p0 p1 : Point) : Point :=
  ⟨dadd (ddiv (dsub p1.x p0.x) (.fin 2)) p0.x,
   dadd (ddiv (dsub p1.y p0.y) (.fin 2)) p0.y⟩

/-- `sum([...])` over coordinates: Python `sum` folds from the left
starting at `0`. -/
def dsum (l : List DecQ) : DecQ := l.foldl dadd (.fin 0)

/-- `SymmetryLineFinder._centroid`: arithmetic mean of the coordinates. -/
def centroid (pts : List Point) : Point :=
  ⟨ddiv (dsum (pts.map Point.x)) (.fin pts.length),
   ddiv (dsum (pts.map Point.y)) (.fin pts.length)⟩

/-- Membership-based deduplication mirroring the `visited` set of the
candidate generator and the `set(points)` of the constructor: an element
equal (under `eq`) to one already emitted is skipped.  Python set
membership is hash-bucketed equality; for the values the program stores,
hashes are consistent with equality, so equality membership is faithful. -/
def dedupAcc (eq : α → α → Bool) : List α → List α → List α
  | _, [] => []
  | seen, x :: xs =>
      if seen.any fun v => eq x v then dedupAcc eq seen xs
      else x :: dedupAcc eq (x :: seen) xs

/-- The unordered index pairs `i0 < i1` of the double loop, in loop order. -/
def upperPairs : List α → List (α × α)
  | [] => []
  | p :: rest => (rest.map fun q => (p, q)) ++ upperPairs rest

/-- `SymmetryLineFinder._candidate_symmetry_lines`: for fewer than 3
points the generator yields nothing; otherwise lines from the centroid to
each pairwise bisection point, then to each vertex, deduplicated by `Line`
equality through the `visited` set. -/
def candidateSymmetryLines (pts : List Point) : List Line :=
  if pts.length < 3 then []
  else
    dedupAcc lineEq []
      (((upperPairs pts).map fun pq =>
          fromPoints (centroid pts) (bisectionPoint pq.1 pq.2)) ++
        (pts.map fun p => fromPoints (centroid pts) p))

/-- `SymmetryLineFinder.find_all`: each candidate paired with its
`is_symmetry_line` verdict against the working point set. -/
def findAll (pts : List Point) : List (Bool × Line) :=
  (candidateSymmetryLines pts).map fun L => (isSymmetryLine L pts, L)

/-- `SymmetryLineFinder.find`: the candidates classified as true symmetry
lines. -/
def find (pts : List Point) : List Line :=
  ((findAll pts).filter fun bl => bl.1).map fun bl => bl.2

/-- `SymmetryLineFinder.__init__`: raises `ValueError` when the raw input
list has length `<= 2`, otherwise stores `list(set(points))` — the input
deduplicated by `Point` equality. -/
def finderInit (pts : List Point) : Except String (List Point) :=
  if pts.length ≤ 2 then .error "Cannot create symmetry lines for <3 points"
  else .ok (dedupAcc pointEq [] pts)



/-! ### Representation-level model of `normalize` (for claim C9)

A finite Python `Decimal` is a sign-carrying mantissa and an exponent:
the value is `m * 10 ^ e`.  `d.normalize()` under a context with
precision `N` rounds `d` to at most `N` significant digits (half-even,
the default rounding) and then strips trailing zeros from the mantissa,
collapsing zero to `0E+0`.  The source `normalize` runs `d.normalize()`
inside `localcontext()` with `prec = getcontext().prec - 1`. -/

structure DecFin where
  m : Int
  e : Int
deriving DecidableEq, Repr

def sigLen (n : Nat) : Nat := Nat.log 10 n + 1

def roundHalfEvenNat (n t : Nat) : Nat :=
  if 2 * (n % t) < t then n / t
  else if t < 2 * (n % t) then n / t + 1
  else if (n / t) % 2 = 0 then n / t else n / t + 1

def roundPrec (N : Nat) (m : Int) (e : Int) : Int × Int :=
  if m.natAbs < 10 ^ N then (m, e)
  else
    let k := sigLen m.natAbs - N
    (m.sign * (roundHalfEvenNat m.natAbs (10 ^ k) : Int), e + k)

def stripFacAux : Nat → Nat → Nat × Nat
  | 0, n => (n, 0)
  | fuel + 1, n =>
      if n % 10 = 0 ∧ n ≠ 0 then
        let p := stripFacAux fuel (n / 10)
        (p.1, p.2 + 1)
      else (n, 0)

def stripFac (n : Nat) : Nat × Nat := stripFacAux n n

def normalizeD (N : Nat) (d : DecFin) : DecFin :=
  if d.m = 0 then ⟨0, 0⟩
  else
    let r := roundPrec N d.m d.e
    let s := stripFac r.1.natAbs
    ⟨r.1.sign * s.1, r.2 + s.2⟩

def pyNormalize (prec : Nat) (d : DecFin) : DecFin := normalizeD (prec - 1) d


/-! ### The rounded model: `Decimal` arithmetic at context precision `P`

`RD.num m e` is the finite decimal `m * 10 ^ e`; `RD.nan` the quiet-NaN
sentinel.  `roundMant` rounds a mantissa to at most `P` significant
digits half-even (the context rounding that real `Decimal` applies to
every arithmetic result); `rdAdd`, `rdSub`, `rdMul` compute the exact
result and round it; `rdDiv` is the correctly-rounded quotient at `P`
digits; `rdEq` is raw `==` (exact value comparison); `rdNormEq` is the
`normalize(a) == normalize(b)` comparison at `P - 1` digits used by
`Point.__eq__` and `Line.__eq__`.  The `r`-prefixed geometry defs below
are the same source functions as their exact-model counterparts, with
every `Decimal` operation carried out at precision `P`. -/

def dlenAux : Nat → Nat → Nat
  | 0, _ => 1
  | fuel + 1, n => if n < 10 then 1 else dlenAux fuel (n / 10) + 1

def digitLen (n : Nat) : Nat := dlenAux n n

inductive RD where
  | nan : RD
  | num : Int → Int → RD
deriving DecidableEq, Repr

def roundMant (P : Nat) (m : Int) (e : Int) : RD :=
  if m.natAbs < 10 ^ P then .num m e
  else
    let k := digitLen m.natAbs - P
    .num (m.sign * (roundHalfEvenNat m.natAbs (10 ^ k) : Int)) (e + k)

def rdAdd (P : Nat) : RD → RD → RD
  | .num m1 e1, .num m2 e2 =>
      roundMant P (m1 * 10 ^ (e1 - min e1 e2).toNat + m2 * 10 ^ (e2 - min e1 e2).toNat)
        (min e1 e2)
  | _, _ => .nan

def rdSub (P : Nat) : RD → RD → RD
  | .num m1 e1, .num m2 e2 =>
      roundMant P (m1 * 10 ^ (e1 - min e1 e2).toNat - m2 * 10 ^ (e2 - min e1 e2).toNat)
        (min e1 e2)
  | _, _ => .nan

def rdMul (P : Nat) : RD → RD → RD
  | .num m1 e1, .num m2 e2 => roundMant P (m1 * m2) (e1 + e2)
  | _, _ => .nan

def rdDiv (P : Nat) : RD → RD → RD
  | .num m1 e1, .num m2 e2 =>
      if m2 = 0 then .nan
      else if m1 = 0 then .num 0 0
      else
        let t := P + digitLen m2.natAbs
        let k := digitLen (m1.natAbs * 10 ^ t / m2.natAbs) - P
        .num (m1.sign * m2.sign *
            (roundHalfEvenNat (m1.natAbs * 10 ^ t) (m2.natAbs * 10 ^ k) : Int))
          (e1 - e2 - t + k)
  | _, _ => .nan

def rdEq : RD → RD → Bool
  | .num m1 e1, .num m2 e2 =>
      m1 * 10 ^ (e1 - min e1 e2).toNat == m2 * 10 ^ (e2 - min e1 e2).toNat
  | _, _ => false

def rdIsNan : RD → Bool
  | .nan => true
  | .num _ _ => false

def rdNorm (P : Nat) : RD → RD
  | .num m e => roundMant (P - 1) m e
  | .nan => .nan

def rdNormEq (P : Nat) (a b : RD) : Bool := rdEq (rdNorm P a) (rdNorm P b)

structure RPoint where
  x : RD
  y : RD
deriving DecidableEq, Repr

def rPointEq (P : Nat) (p q : RPoint) : Bool :=
  rdNormEq P p.x q.x && rdNormEq P p.y q.y

structure RLine where
  slope : RD
  intercept : RD
  x : RD
deriving DecidableEq, Repr

def rIsVertical (L : RLine) : Bool := rdIsNan L.slope || rdIsNan L.intercept

def rIsHorizontal (L : RLine) : Bool := rdEq L.slope (.num 0 0)

def rLineEq (P : Nat) (a b : RLine) : Bool :=
  if rIsVertical a && rIsVertical b then !rdIsNan a.x && rdNormEq P a.x b.x
  else rdNormEq P a.slope b.slope && rdNormEq P a.intercept b.intercept

def rFromPoints (P : Nat) (p0 p1 : RPoint) : RLine :=
  let den := rdSub P p1.x p0.x
  if !rdEq den (.num 0 0) then
    let slope := rdDiv P (rdSub P p1.y p0.y) den
    ⟨slope, rdSub P p1.y (rdMul P slope p1.x), .nan⟩
  else
    ⟨.nan, .nan, p1.x⟩

def rContainsPoint (P : Nat) (L : RLine) (p0 : RPoint) : Bool :=
  rdEq p0.y (rdAdd P (rdMul P p0.x L.slope) L.intercept)

def rPerpendicularIntersectionPoint (P : Nat) (L : RLine) (p0 : RPoint) : RPoint :=
  if rIsVertical L then ⟨L.x, p0.y⟩
  else if rIsHorizontal L then ⟨p0.x, L.intercept⟩
  else
    let x := rdMul P (rdDiv P L.slope (rdAdd P (rdMul P L.slope L.slope) (.num 1 0)))
                  (rdSub P (rdAdd P p0.y (rdDiv P p0.x L.slope)) L.intercept)
    ⟨x, rdAdd P (rdMul P L.slope x) L.intercept⟩

def rFoldedPoint (P : Nat) (L : RLine) (p0 : RPoint) : RPoint :=
  if rContainsPoint P L p0 then p0
  else
    let pInt := rPerpendicularIntersectionPoint P L p0
    ⟨rdSub P (rdMul P (.num 2 0) pInt.x) p0.x,
     rdSub P (rdMul P (.num 2 0) pInt.y) p0.y⟩

def rIsSymmetryLine (P : Nat) (L : RLine) (points : List RPoint) : Bool :=
  points.all fun p =>
    let f := rFoldedPoint P L p
    rPointEq P f p || points.any fun q => rPointEq P q f

def rBisectionPoint (P : Nat) (p0 p1 : RPoint) : RPoint :=
  ⟨rdAdd P (rdDiv P (rdSub P p1.x p0.x) (.num 20 (-1))) p0.x,
   rdAdd P (rdDiv P (rdSub P p1.y p0.y) (.num 20 (-1))) p0.y⟩

def rdSum (P : Nat) (l : List RD) : RD := l.foldl (rdAdd P) (.num 0 0)

def rCentroid (P : Nat) (pts : List RPoint) : RPoint :=
  ⟨rdDiv P (rdSum P (pts.map RPoint.x)) (.num pts.length 0),
   rdDiv P (rdSum P (pts.map RPoint.y)) (.num pts.length 0)⟩

def rCandidateSymmetryLines (P : Nat) (pts : List RPoint) : List RLine :=
  if pts.length < 3 then []
  else
    dedupAcc (rLineEq P) []
      (((upperPairs pts).map fun pq =>
          rFromPoints P (rCentroid P pts) (rBisectionPoint P pq.1 pq.2)) ++
        (pts.map fun p => rFromPoints P (rCentroid P pts) p))

def rFindAll (P : Nat) (pts : List RPoint) : List (Bool × RLine) :=
  (rCandidateSymmetryLines P pts).map fun L => (rIsSymmetryLine P L pts, L)

def rFind (P : Nat) (pts : List RPoint) : List RLine :=
  ((rFindAll P pts).filter fun bl => bl.1).map fun bl => bl.2

/-- The rational value of a finite decimal (NaN is given the junk value 0;
it is only ever applied to finite operands). -/
def rdVal : RD → ℚ
  | .nan => 0
  | .num m e => (m : ℚ) * 10 ^ e

/-- The C1 counterexample point set (0,0), (1.0,0), (1.4,0), (2000000,0):
`Decimal("1.0")` is mantissa 10, exponent -1. -/
def c1Pts : List RPoint :=
  [⟨.num 0 0, .num 0 0⟩, ⟨.num 10 (-1), .num 0 0⟩,
   ⟨.num 14 (-1), .num 0 0⟩, ⟨.num 2000000 0, .num 0 0⟩]

/-- The right-triangle scenario (0,50), (50,50), (50,0) from the tests. -/
def triPts : List RPoint :=
  [⟨.num 0 0, .num 50 0⟩, ⟨.num 50 0, .num 50 0⟩, ⟨.num 50 0, .num 0 0⟩]

/-- A square rotated off-axis: (3,1), (-3,-1), (1,-3), (-1,3); its
symmetry lines have slopes 1/3 and -3 and its centroid is the origin. -/
def sqPts : List RPoint :=
  [⟨.num 3 0, .num 1 0⟩, ⟨.num (-3) 0, .num (-1) 0⟩,
   ⟨.num 1 0, .num (-3) 0⟩, ⟨.num (-1) 0, .num 3 0⟩]

/-- A point both of whose coordinates are finite (not the NaN sentinel).
Points accepted by the finder are of this shape: hashing a NaN `Decimal`
raises `TypeError` inside `set(points)`, so NaN coordinates never reach
the working set. -/
def FinPt (p : Point) : Prop := isFin p.x = true ∧ isFin p.y = true

/-- A `Line` with the field discipline the program's own constructors
maintain: either both `slope` and `intercept` are the NaN sentinel
(vertical shape, as built by `from_points` for coincident x), or `slope`
and `intercept` are finite and `x` is the NaN sentinel (sloped shape).
`Line()` default arguments and `from_points` only ever produce these. -/
def wfLine (L : Line) : Prop :=
  (L.slope = .nan ∧ L.intercept = .nan) ∨
    (isFin L.slope = true ∧ isFin L.intercept = true ∧ L.x = .nan)

end Symmetry

namespace Symmetry

/-! ### Basic lemmas about the decimal embedding -/

theorem deq_true_iff {a b : DecQ} :
    deq a b = true ↔ ∃ q, a = DecQ.fin q ∧ b = DecQ.fin q := by
  cases a with
  | nan => cases b <;> simp [deq]
  | fin x =>
    cases b with
    | nan => simp [deq]
    | fin y =>
      simp only [deq, beq_iff_eq, DecQ.fin.injEq]
      constructor
      · intro h
        exact ⟨x, rfl, h.symm⟩
      · rintro ⟨q, h1, h2⟩
        rw [h1, h2]

theorem deq_symm (a b : DecQ) : deq a b = deq b a := by
  cases a with
  | nan => cases b <;> rfl
  | fin x =>
    cases b with
    | nan => rfl
    | fin y =>
      simp only [deq]
      by_cases h : x = y
      · subst h; rfl
      · rw [beq_eq_false_iff_ne.mpr h, beq_eq_false_iff_ne.mpr (Ne.symm h)]

theorem pointEq_true_iff {p q : Point} :
    pointEq p q = true ↔
      (∃ r, p.x = DecQ.fin r ∧ q.x = DecQ.fin r) ∧
        (∃ r, p.y = DecQ.fin r ∧ q.y = DecQ.fin r) := by
  simp [pointEq, deq_true_iff]

theorem pointEq_symm {p q : Point} (h : pointEq p q = true) : pointEq q p = true := by
  simp [pointEq] at h ⊢
  exact ⟨(deq_symm q.x p.x).trans h.1, (deq_symm q.y p.y).trans h.2⟩

theorem isFin_iff {d : DecQ} : isFin d = true ↔ ∃ q, d = DecQ.fin q := by
  cases d <;> simp [isFin, dIsNan]

theorem nonvertical_iff {L : Line} :
    isVertical L = false ↔
      (∃ m, L.slope = DecQ.fin m) ∧ (∃ b, L.intercept = DecQ.fin b) := by
  cases h : L.slope <;> cases h2 : L.intercept <;>
    simp [isVertical, dIsNan, h, h2]

theorem lineEq_true_iff {a b : Line} :
    lineEq a b = true ↔
      (isVertical a = true ∧ isVertical b = true ∧
        ∃ q, a.x = DecQ.fin q ∧ b.x = DecQ.fin q) ∨
      ((isVertical a = false ∨ isVertical b = false) ∧
        (∃ m, a.slope = DecQ.fin m ∧ b.slope = DecQ.fin m) ∧
        (∃ i, a.intercept = DecQ.fin i ∧ b.intercept = DecQ.fin i)) := by
  by_cases hv : isVertical a = true ∧ isVertical b = true
  · have hcond : (isVertical a && isVertical b) = true := by simp [hv.1, hv.2]
    have hL : lineEq a b = (!dIsNan a.x && deq a.x b.x) := by
      unfold lineEq; rw [if_pos hcond]
    rw [hL]
    constructor
    · intro h
      simp only [Bool.and_eq_true] at h
      exact Or.inl ⟨hv.1, hv.2, deq_true_iff.mp h.2⟩
    · rintro (⟨_, _, q, hq1, hq2⟩ | ⟨_, ⟨m, hm1, _⟩, ⟨i, hi1, _⟩⟩)
      · simp [hq1, hq2, deq, dIsNan]
      · have hnv : isVertical a = false := nonvertical_iff.mpr ⟨⟨m, hm1⟩, ⟨i, hi1⟩⟩
        rw [hv.1] at hnv
        exact absurd hnv (by simp)
  · have hcond : ¬((isVertical a && isVertical b) = true) := by
      intro h
      simp only [Bool.and_eq_true] at h
      exact hv h
    have hL : lineEq a b = (deq a.slope b.slope && deq a.intercept b.intercept) := by
      unfold lineEq; rw [if_neg hcond]
    rw [hL]
    constructor
    · intro h
      simp only [Bool.and_eq_true] at h
      rcases deq_true_iff.mp h.1 with ⟨m, hm1, hm2⟩
      rcases deq_true_iff.mp h.2 with ⟨i, hi1, hi2⟩
      exact Or.inr ⟨Or.inl (nonvertical_iff.mpr ⟨⟨m, hm1⟩, ⟨i, hi1⟩⟩),
        ⟨m, hm1, hm2⟩, ⟨i, hi1, hi2⟩⟩
    · rintro (⟨ha, hb, _⟩ | ⟨_, ⟨m, hm1, hm2⟩, ⟨i, hi1, hi2⟩⟩)
      · exact absurd ⟨ha, hb⟩ hv
      · simp [hm1, hm2, hi1, hi2, deq]

theorem lineEq_symm_eq (a b : Line) : lineEq a b = lineEq b a := by
  unfold lineEq
  rw [Bool.and_comm]
  by_cases h : (isVertical b && isVertical a) = true
  · simp only [h, if_pos]
    cases ha : a.x <;> cases hb : b.x <;> simp [deq, dIsNan, BEq.comm]
  · simp only [Bool.not_eq_true] at h
    simp only [h, Bool.false_eq_true, if_false]
    rw [deq_symm a.slope, deq_symm a.intercept]

theorem containsPoint_of_vertical (L : Line) (p : Point)
    (hv : isVertical L = true) : containsPoint L p = false := by
  rcases L with ⟨s, i, x⟩
  unfold containsPoint
  cases s <;> cases i <;> cases hx : p.x <;> cases hy : p.y <;>
    simp_all [isVertical, dIsNan, dmul, dadd, deq]

/-! ### Claim C6 — contains_point -/

/-- C6: for a non-vertical line, `contains_point(p)` holds exactly when
`p.y == p.x*slope + intercept`; for a vertical line (NaN slope or
intercept) it is `false` for every point: the NaN sentinel propagates
through the arithmetic and compares unequal. -/
theorem C6_contains_point_characterization (L : Line) (p : Point) :
    (∀ m b qx qy : ℚ, L.slope = DecQ.fin m → L.intercept = DecQ.fin b →
      p.x = DecQ.fin qx → p.y = DecQ.fin qy →
      (containsPoint L p = true ↔ qy = qx * m + b)) ∧
    (isVertical L = true → containsPoint L p = false) := by
  constructor
  · intro m b qx qy hm hb hx hy
    simp [containsPoint, hm, hb, hx, hy, dmul, dadd, deq]
  · exact containsPoint_of_vertical L p

/-- Witness for C6 on the line `y = 2x + 1` and the points `(3, 7)`
(on the line) and a vertical line with the point `(1, 1)`. -/
theorem C6_contains_point_characterization_witness :
    (containsPoint ⟨DecQ.fin 2, DecQ.fin 1, DecQ.nan⟩ ⟨DecQ.fin 3, DecQ.fin 7⟩ = true
      ↔ (7 : ℚ) = 3 * 2 + 1) ∧
    containsPoint ⟨DecQ.nan, DecQ.nan, DecQ.fin 5⟩ ⟨DecQ.fin 1, DecQ.fin 1⟩ = false := by
  constructor
  · exact (C6_contains_point_characterization ⟨DecQ.fin 2, DecQ.fin 1, DecQ.nan⟩
      ⟨DecQ.fin 3, DecQ.fin 7⟩).1 2 1 3 7 rfl rfl rfl rfl
  · exact (C6_contains_point_characterization ⟨DecQ.nan, DecQ.nan, DecQ.fin 5⟩
      ⟨DecQ.fin 1, DecQ.fin 1⟩).2 (by decide)

/-! ### Claim C4 — equality is an equivalence relation -/

/-- C4 counterexample: the default `Line()` — all three fields NaN, a
"vertical line with unset x" — is not equal to itself, so `Line` equality
is not reflexive on all lines. -/
theorem C4_counterexample_default_line_not_reflexive :
    lineEq ⟨DecQ.nan, DecQ.nan, DecQ.nan⟩ ⟨DecQ.nan, DecQ.nan, DecQ.nan⟩ = false := by
  decide

/-- C4 amended: `Point` and `Line` equality are symmetric and transitive;
reflexivity holds for every point with finite coordinates and for every
line that is non-vertical or is vertical with a set (finite) `x`.  It
fails for points with a NaN coordinate and for vertical lines with unset
`x` (NaN compares unequal to itself). -/
theorem C4_equality_equivalence :
    (∀ a : Point, FinPt a → pointEq a a = true) ∧
    (∀ a b : Point, pointEq a b = true → pointEq b a = true) ∧
    (∀ a b c : Point, pointEq a b = true → pointEq b c = true → pointEq a c = true) ∧
    (∀ a : Line, (isVertical a = false ∨ isFin a.x = true) → lineEq a a = true) ∧
    (∀ a b : Line, lineEq a b = true → lineEq b a = true) ∧
    (∀ a b c : Line, lineEq a b = true → lineEq b c = true → lineEq a c = true) := by
  refine ⟨?_, ?_, ?_, ?_, ?_, ?_⟩
  · rintro ⟨px, py⟩ ⟨hx, hy⟩
    cases px <;> cases py <;> simp_all [isFin, dIsNan, pointEq, deq]
  · intro a b h
    exact pointEq_symm h
  · intro a b c hab hbc
    rcases pointEq_true_iff.mp hab with ⟨⟨r, har, hbr⟩, ⟨s, has, hbs⟩⟩
    rcases pointEq_true_iff.mp hbc with ⟨⟨u, hbu, hcu⟩, ⟨v, hbv, hcv⟩⟩
    rw [hbr] at hbu
    rw [hbs] at hbv
    simp only [DecQ.fin.injEq] at hbu hbv
    subst hbu
    subst hbv
    exact pointEq_true_iff.mpr ⟨⟨r, har, hcu⟩, ⟨s, has, hcv⟩⟩
  · intro a ha
    rcases ha with h | h
    · rcases nonvertical_iff.mp h with ⟨⟨m, hm⟩, ⟨i, hi⟩⟩
      exact lineEq_true_iff.mpr (Or.inr ⟨Or.inl h, ⟨m, hm, hm⟩, ⟨i, hi, hi⟩⟩)
    · cases hv : isVertical a with
      | false =>
        rcases nonvertical_iff.mp hv with ⟨⟨m, hm⟩, ⟨i, hi⟩⟩
        exact lineEq_true_iff.mpr (Or.inr ⟨Or.inl hv, ⟨m, hm, hm⟩, ⟨i, hi, hi⟩⟩)
      | true =>
        cases hx : a.x with
        | nan => rw [hx] at h; simp [isFin, dIsNan] at h
        | fin q => exact lineEq_true_iff.mpr (Or.inl ⟨hv, hv, q, hx, hx⟩)
  · intro a b h
    rw [lineEq_symm_eq]
    exact h
  · intro a b c hab hbc
    rcases lineEq_true_iff.mp hab with ⟨ha, hb, q, haq, hbq⟩ |
        ⟨_, ⟨m, ham, hbm⟩, ⟨i, hai, hbi⟩⟩
    · rcases lineEq_true_iff.mp hbc with ⟨_, hc, r, hbr, hcr⟩ |
          ⟨_, ⟨n, hbn, _⟩, ⟨j, hbj, _⟩⟩
      · rw [hbq] at hbr
        simp only [DecQ.fin.injEq] at hbr
        subst hbr
        exact lineEq_true_iff.mpr (Or.inl ⟨ha, hc, q, haq, hcr⟩)
      · have hvb : isVertical b = false := nonvertical_iff.mpr ⟨⟨n, hbn⟩, ⟨j, hbj⟩⟩
        rw [hb] at hvb
        exact absurd hvb (by simp)
    · rcases lineEq_true_iff.mp hbc with ⟨hb, _, _⟩ |
          ⟨_, ⟨n, hbn, hcn⟩, ⟨j, hbj, hcj⟩⟩
      · have hvb : isVertical b = false := nonvertical_iff.mpr ⟨⟨m, hbm⟩, ⟨i, hbi⟩⟩
        rw [hb] at hvb
        exact absurd hvb (by simp)
      · rw [hbm] at hbn
        rw [hbi] at hbj
        simp only [DecQ.fin.injEq] at hbn hbj
        subst hbn
        subst hbj
        exact lineEq_true_iff.mpr (Or.inr
          ⟨Or.inl (nonvertical_iff.mpr ⟨⟨m, ham⟩, ⟨i, hai⟩⟩),
           ⟨m, ham, hcn⟩, ⟨i, hai, hcj⟩⟩)

/-- Witness for C4 amended at concrete inputs: reflexivity on a finite
point and on a sloped line, symmetry and transitivity on equal points. -/
theorem C4_equality_equivalence_witness :
    pointEq ⟨DecQ.fin 1, DecQ.fin 2⟩ ⟨DecQ.fin 1, DecQ.fin 2⟩ = true ∧
    lineEq ⟨DecQ.fin 3, DecQ.fin 4, DecQ.nan⟩ ⟨DecQ.fin 3, DecQ.fin 4, DecQ.nan⟩ = true :=
  ⟨C4_equality_equivalence.1 ⟨DecQ.fin 1, DecQ.fin 2⟩ ⟨rfl, rfl⟩,
   C4_equality_equivalence.2.2.2.1 ⟨DecQ.fin 3, DecQ.fin 4, DecQ.nan⟩
     (Or.inl (by decide))⟩

/-! ### Claim C3 — hash is consistent with equality -/

/-- C3 counterexample: `Line.__eq__` ignores the `x` field of non-vertical
lines (the tests assert `Line(1.1, 2.1, 3) == Line(1.1, 2.1, 5)`), but
`Line.__hash__` hashes all three fields, so these two equal lines hash
differently. -/
theorem C3_counterexample_superfluous_x_field :
    lineEq ⟨DecQ.fin 1, DecQ.fin 2, DecQ.fin 3⟩ ⟨DecQ.fin 1, DecQ.fin 2, DecQ.fin 5⟩ = true ∧
    lineHashKey ⟨DecQ.fin 1, DecQ.fin 2, DecQ.fin 3⟩ ≠
      lineHashKey ⟨DecQ.fin 1, DecQ.fin 2, DecQ.fin 5⟩ := by
  refine ⟨by decide, ?_⟩
  intro h
  simp only [lineHashKey, hcomp, Prod.mk.injEq, Option.some.injEq] at h
  have h3 : (3 : ℚ) = 5 := h.2.2
  norm_num at h3

/-- C3 amended: equal `Point`s always hash equal; equal `Line`s hash equal
provided both lines keep the constructor field discipline (`wfLine`):
vertical lines carry NaN in both `slope` and `intercept`, sloped lines
carry NaN in `x` — which is what `from_points` and the default arguments
produce.  Lines built with superfluous finite fields can be equal yet hash
differently. -/
theorem C3_hash_consistent_with_equality :
    (∀ a b : Point, pointEq a b = true → pointHashKey a = pointHashKey b) ∧
    (∀ a b : Line, wfLine a → wfLine b → lineEq a b = true →
      lineHashKey a = lineHashKey b) := by
  constructor
  · intro a b h
    rcases pointEq_true_iff.mp h with ⟨⟨r, har, hbr⟩, ⟨s, has, hbs⟩⟩
    simp [pointHashKey, har, hbr, has, hbs]
  · intro a b hwa hwb heq
    rcases lineEq_true_iff.mp heq with ⟨ha, hb, q, haq, hbq⟩ |
        ⟨_, ⟨m, ham, hbm⟩, ⟨i, hai, hbi⟩⟩
    · have hva : a.slope = DecQ.nan ∧ a.intercept = DecQ.nan := by
        rcases hwa with h | ⟨hs, hi, _⟩
        · exact h
        · rcases isFin_iff.mp hs with ⟨m, hm⟩
          rcases isFin_iff.mp hi with ⟨n, hn⟩
          have hnv : isVertical a = false := nonvertical_iff.mpr ⟨⟨m, hm⟩, ⟨n, hn⟩⟩
          rw [ha] at hnv
          exact absurd hnv (by simp)
      have hvb : b.slope = DecQ.nan ∧ b.intercept = DecQ.nan := by
        rcases hwb with h | ⟨hs, hi, _⟩
        · exact h
        · rcases isFin_iff.mp hs with ⟨m, hm⟩
          rcases isFin_iff.mp hi with ⟨n, hn⟩
          have hnv : isVertical b = false := nonvertical_iff.mpr ⟨⟨m, hm⟩, ⟨n, hn⟩⟩
          rw [hb] at hnv
          exact absurd hnv (by simp)
      simp [lineHashKey, hcomp, hva.1, hva.2, hvb.1, hvb.2, haq, hbq]
    · have hax : a.x = DecQ.nan := by
        rcases hwa with ⟨hs, _⟩ | ⟨_, _, hx⟩
        · rw [ham] at hs
          exact absurd hs (by simp)
        · exact hx
      have hbx : b.x = DecQ.nan := by
        rcases hwb with ⟨hs, _⟩ | ⟨_, _, hx⟩
        · rw [hbm] at hs
          exact absurd hs (by simp)
        · exact hx
      simp [lineHashKey, hcomp, ham, hbm, hai, hbi, hax, hbx]

/-- Witness for C3 amended: two representations of the same point hash
equal, and two equal well-formed sloped lines hash equal. -/
theorem C3_hash_consistent_with_equality_witness :
    pointHashKey ⟨DecQ.fin 1, DecQ.fin 2⟩ = pointHashKey ⟨DecQ.fin 1, DecQ.fin 2⟩ ∧
    lineHashKey ⟨DecQ.fin 3, DecQ.fin 4, DecQ.nan⟩ =
      lineHashKey ⟨DecQ.fin 3, DecQ.fin 4, DecQ.nan⟩ :=
  ⟨C3_hash_consistent_with_equality.1 ⟨DecQ.fin 1, DecQ.fin 2⟩ ⟨DecQ.fin 1, DecQ.fin 2⟩
      (by decide),
   C3_hash_consistent_with_equality.2 ⟨DecQ.fin 3, DecQ.fin 4, DecQ.nan⟩
      ⟨DecQ.fin 3, DecQ.fin 4, DecQ.nan⟩ (Or.inr ⟨rfl, rfl, rfl⟩)
      (Or.inr ⟨rfl, rfl, rfl⟩) (by decide)⟩

/-! ### Claim C2 — finder construction -/

/-- C2 counterexample: the `len(points) <= 2` check runs on the raw input
BEFORE deduplication, so three copies of one point are accepted, and the
deduplicated working set then has size 1 < 3. -/
theorem C2_counterexample_duplicates_accepted :
    finderInit [⟨DecQ.fin 0, DecQ.fin 0⟩, ⟨DecQ.fin 0, DecQ.fin 0⟩,
        ⟨DecQ.fin 0, DecQ.fin 0⟩] = .ok [⟨DecQ.fin 0, DecQ.fin 0⟩] ∧
    ([(⟨DecQ.fin 0, DecQ.fin 0⟩ : Point)] : List Point).length < 3 := by
  constructor
  · norm_num [finderInit, dedupAcc, pointEq, deq]
  · norm_num

/-- C2 amended: construction fails with the invalid-input error exactly
when the RAW input list has at most 2 entries (the length check precedes
deduplication); on success the working set is the deduplicated input,
which is nonempty but may well have fewer than 3 points. -/
theorem C2_finder_init_checks_raw_length (pts : List Point) :
    (pts.length ≤ 2 →
      finderInit pts = .error "Cannot create symmetry lines for <3 points") ∧
    (3 ≤ pts.length → finderInit pts = .ok (dedupAcc pointEq [] pts)) ∧
    (∀ ws, finderInit pts = .ok ws → 1 ≤ ws.length) := by
  refine ⟨?_, ?_, ?_⟩
  · intro h
    simp [finderInit, h]
  · intro h
    have h2 : ¬pts.length ≤ 2 := by omega
    simp [finderInit, h2]
  · intro ws hws
    unfold finderInit at hws
    by_cases h : pts.length ≤ 2
    · rw [if_pos h] at hws
      exact absurd hws (by simp)
    · rw [if_neg h] at hws
      simp only [Except.ok.injEq] at hws
      subst hws
      cases pts with
      | nil => simp at h
      | cons p rest =>
        simp only [dedupAcc, List.any_nil, Bool.false_eq_true, if_false]
        simp

/-- Witness for C2 amended: a 2-point input fails, a 3-point input
succeeds with the deduplicated working set. -/
theorem C2_finder_init_checks_raw_length_witness :
    finderInit [⟨DecQ.fin 0, DecQ.fin 0⟩, ⟨DecQ.fin 1, DecQ.fin 1⟩] =
      .error "Cannot create symmetry lines for <3 points" ∧
    finderInit [⟨DecQ.fin 0, DecQ.fin 0⟩, ⟨DecQ.fin 1, DecQ.fin 1⟩,
        ⟨DecQ.fin 2, DecQ.fin 2⟩] =
      .ok (dedupAcc pointEq [] [⟨DecQ.fin 0, DecQ.fin 0⟩, ⟨DecQ.fin 1, DecQ.fin 1⟩,
        ⟨DecQ.fin 2, DecQ.fin 2⟩]) :=
  ⟨(C2_finder_init_checks_raw_length _).1 (by norm_num),
   (C2_finder_init_checks_raw_length _).2.1 (by norm_num)⟩

/-! ### Deduplication lemmas and claim C8 -/

theorem dedupAcc_subset (eq : α → α → Bool) (seen l : List α) :
    ∀ x ∈ dedupAcc eq seen l, x ∈ l := by
  induction l generalizing seen with
  | nil => intro x hx; simp [dedupAcc] at hx
  | cons a rest ih =>
    intro x hx
    unfold dedupAcc at hx
    by_cases h : (seen.any fun v => eq a v) = true
    · rw [if_pos h] at hx
      exact List.mem_cons_of_mem a (ih seen x hx)
    · rw [if_neg h] at hx
      rcases List.mem_cons.mp hx with h1 | h1
      · exact h1 ▸ List.mem_cons_self a rest
      · exact List.mem_cons_of_mem a (ih (a :: seen) x h1)

theorem dedupAcc_not_seen (eq : α → α → Bool) (seen l : List α) :
    ∀ x ∈ dedupAcc eq seen l, ∀ v ∈ seen, eq x v = false := by
  induction l generalizing seen with
  | nil => intro x hx; simp [dedupAcc] at hx
  | cons a rest ih =>
    intro x hx v hv
    unfold dedupAcc at hx
    by_cases h : (seen.any fun v => eq a v) = true
    · rw [if_pos h] at hx
      exact ih seen x hx v hv
    · rw [if_neg h] at hx
      rcases List.mem_cons.mp hx with h1 | h1
      · subst h1
        rcases Bool.eq_false_or_eq_true (eq x v) with ht | hf
        · exact absurd (List.any_eq_true.mpr ⟨v, hv, ht⟩) h
        · exact hf
      · exact ih (a :: seen) x h1 v (List.mem_cons_of_mem a hv)

theorem dedupAcc_pairwise (eq : α → α → Bool)
    (hsymm : ∀ a b, eq a b = eq b a) (seen l : List α) :
    (dedupAcc eq seen l).Pairwise (fun a b => eq a b = false) := by
  induction l generalizing seen with
  | nil => simp [dedupAcc]
  | cons a rest ih =>
    unfold dedupAcc
    by_cases h : (seen.any fun v => eq a v) = true
    · rw [if_pos h]
      exact ih seen
    · rw [if_neg h]
      refine List.Pairwise.cons ?_ (ih (a :: seen))
      intro b hb
      rw [hsymm a b]
      exact dedupAcc_not_seen eq (a :: seen) rest b hb a (List.mem_cons_self a seen)

/-- C8: the candidate generator never emits two lines that are equal under
`Line` equality — the `visited` set filters every candidate equal to a
previously emitted line. -/
theorem C8_candidates_pairwise_distinct (pts : List Point) :
    (candidateSymmetryLines pts).Pairwise (fun a b => lineEq a b = false) := by
  unfold candidateSymmetryLines
  by_cases h : pts.length < 3
  · rw [if_pos h]
    simp
  · rw [if_neg h]
    exact dedupAcc_pairwise lineEq lineEq_symm_eq [] _

/-! ### Claim C9 — idempotence of normalize -/

theorem stripFacAux_spec : ∀ fuel n, n ≤ fuel → n ≠ 0 →
    (stripFacAux fuel n).1 ≠ 0 ∧ (stripFacAux fuel n).1 % 10 ≠ 0 ∧
      (stripFacAux fuel n).1 ≤ n := by
  intro fuel
  induction fuel with
  | zero => intro n hn h0; omega
  | succ f ih =>
    intro n hn h0
    unfold stripFacAux
    by_cases hc : n % 10 = 0 ∧ n ≠ 0
    · rw [if_pos hc]
      have h10 : 10 ≤ n := by
        rcases hc with ⟨hmod, _⟩
        omega
      have hdivle : n / 10 ≤ f := by omega
      have hdivne : n / 10 ≠ 0 := by omega
      rcases ih (n / 10) hdivle hdivne with ⟨h1, h2, h3⟩
      refine ⟨h1, h2, ?_⟩
      simp only
      omega
    · rw [if_neg hc]
      have hmod : n % 10 ≠ 0 := by
        by_cases hm : n % 10 = 0
        · exact absurd ⟨hm, h0⟩ hc
        · exact hm
      exact ⟨h0, hmod, le_refl n⟩

theorem stripFac_spec {n : Nat} (h0 : n ≠ 0) :
    (stripFac n).1 ≠ 0 ∧ (stripFac n).1 % 10 ≠ 0 ∧ (stripFac n).1 ≤ n :=
  stripFacAux_spec n n (le_refl n) h0

theorem stripFac_no_op {n : Nat} (h : n % 10 ≠ 0) : stripFac n = (n, 0) := by
  have h0 : n ≠ 0 := by
    intro hz
    subst hz
    exact h rfl
  unfold stripFac
  cases n with
  | zero => exact absurd rfl h0
  | succ k =>
    unfold stripFacAux
    rw [if_neg]
    intro hc
    exact h hc.1

theorem roundHalfEvenNat_bounds (n t : Nat) :
    n / t ≤ roundHalfEvenNat n t ∧ roundHalfEvenNat n t ≤ n / t + 1 := by
  unfold roundHalfEvenNat
  split_ifs <;> omega

theorem roundPrec_spec (N : Nat) (hN : 1 ≤ N) (m : Int) (e : Int) (hm : m ≠ 0) :
    (roundPrec N m e).1 ≠ 0 ∧ (roundPrec N m e).1.natAbs ≤ 10 ^ N ∧
      (roundPrec N m e).1.sign = m.sign := by
  unfold roundPrec
  by_cases hlt : m.natAbs < 10 ^ N
  · rw [if_pos hlt]
    exact ⟨hm, le_of_lt hlt, rfl⟩
  · rw [if_neg hlt]
    simp only
    set n := m.natAbs with hn
    have hn0 : n ≠ 0 := Int.natAbs_ne_zero.mpr hm
    have hle : 10 ^ N ≤ n := Nat.le_of_not_lt hlt
    have hlog : N ≤ Nat.log 10 n := (Nat.pow_le_iff_le_log (by norm_num) hn0).mp hle
    set k := sigLen n - N with hk
    have hks : N + k = Nat.log 10 n + 1 := by
      simp only [hk, sigLen]
      omega
    have ht : 0 < 10 ^ k := Nat.pos_pow_of_pos k (by norm_num)
    have htle : 10 ^ k ≤ n := by
      calc 10 ^ k ≤ 10 ^ Nat.log 10 n := Nat.pow_le_pow_right (by norm_num) (by omega)
      _ ≤ n := Nat.pow_log_le_self 10 hn0
    have hq1 : 1 ≤ n / 10 ^ k := (Nat.one_le_div_iff ht).mpr htle
    have hqlt : n / 10 ^ k < 10 ^ N := by
      rw [Nat.div_lt_iff_lt_mul ht]
      calc n < 10 ^ (Nat.log 10 n + 1) := Nat.lt_pow_succ_log_self (by norm_num) n
      _ = 10 ^ (N + k) := by rw [hks]
      _ = 10 ^ N * 10 ^ k := pow_add 10 N k
    rcases roundHalfEvenNat_bounds n (10 ^ k) with ⟨hb1, hb2⟩
    have hrne : roundHalfEvenNat n (10 ^ k) ≠ 0 := by omega
    have hrle : roundHalfEvenNat n (10 ^ k) ≤ 10 ^ N := by omega
    have hsign1 : (m.sign * (roundHalfEvenNat n (10 ^ k) : Int)).natAbs =
        roundHalfEvenNat n (10 ^ k) := by
      rw [Int.natAbs_mul]
      rw [Int.natAbs_sign_of_nonzero hm]
      simp
    refine ⟨?_, ?_, ?_⟩
    · intro hzero
      rw [hzero] at hsign1
      simp at hsign1
      exact hrne hsign1.symm
    · rw [hsign1]
      exact hrle
    · rw [Int.sign_mul]
      have hone : ((roundHalfEvenNat n (10 ^ k) : Int)).sign = 1 :=
        Int.sign_eq_one_iff_pos.mpr (by exact_mod_cast Nat.pos_of_ne_zero hrne)
      rw [hone, mul_one, Int.sign_sign]

theorem normalizeD_idem (N : Nat) (hN : 1 ≤ N) (d : DecFin) :
    normalizeD N (normalizeD N d) = normalizeD N d := by
  by_cases hm : d.m = 0
  · simp [normalizeD, hm]
  · have hstep : normalizeD N d =
        ⟨(roundPrec N d.m d.e).1.sign * (stripFac (roundPrec N d.m d.e).1.natAbs).1,
         (roundPrec N d.m d.e).2 + (stripFac (roundPrec N d.m d.e).1.natAbs).2⟩ := by
      unfold normalizeD
      rw [if_neg hm]
    rcases roundPrec_spec N hN d.m d.e hm with ⟨hr0, hrle, hrsign⟩
    set m1 := (roundPrec N d.m d.e).1 with hm1
    set e1 := (roundPrec N d.m d.e).2 with he1
    have hna : m1.natAbs ≠ 0 := Int.natAbs_ne_zero.mpr hr0
    rcases stripFac_spec hna with ⟨hs0, hsmod, hsle⟩
    set s1 := (stripFac m1.natAbs).1 with hs1
    set c := (stripFac m1.natAbs).2 with hc
    have hslt : s1 < 10 ^ N := by
      rcases Nat.lt_or_ge s1 (10 ^ N) with h | h
      · exact h
      · exfalso
        have hseq : s1 = 10 ^ N := by omega
        have hdvd : s1 % 10 = 0 := by
          rw [hseq]
          have : 10 ^ N = 10 * 10 ^ (N - 1) := by
            rw [← pow_succ']
            congr 1
            omega
          rw [this]
          omega
        exact hsmod hdvd
    have hresm : (m1.sign * (s1 : Int)) ≠ 0 := by
      intro hz
      rcases mul_eq_zero.mp hz with h | h
      · rw [Int.sign_eq_zero_iff_zero] at h
        exact hr0 h
      · rw [Int.natCast_eq_zero] at h
        exact hs0 h
    have hresna : (m1.sign * (s1 : Int)).natAbs = s1 := by
      rw [Int.natAbs_mul, Int.natAbs_sign_of_nonzero hr0]
      simp
    rw [hstep]
    unfold normalizeD
    rw [if_neg hresm]
    simp only
    have hround : roundPrec N (m1.sign * (s1 : Int)) (e1 + c) =
        (m1.sign * (s1 : Int), e1 + c) := by
      unfold roundPrec
      rw [if_pos]
      rw [hresna]
      exact hslt
    rw [hround]
    simp only
    rw [hresna]
    rw [stripFac_no_op hsmod]
    simp only
    have hsign2 : (m1.sign * (s1 : Int)).sign = m1.sign := by
      rw [Int.sign_mul]
      have hpos : ((s1 : Int)).sign = 1 :=
        Int.sign_eq_one_iff_pos.mpr (by exact_mod_cast Nat.pos_of_ne_zero hs0)
      rw [hpos, mul_one, Int.sign_sign]
    rw [hsign2]
    simp

/-- C9: for every decimal value and every active precision `P` at which
`normalize` runs (`P ≥ 2`; at `P = 1` the temporary context `prec = 0` is
rejected by the decimal module), normalizing an already-normalized value
returns it unchanged. -/
theorem C9_normalize_idempotent (P : Nat) (hP : 2 ≤ P) (d : DecFin) :
    pyNormalize P (pyNormalize P d) = pyNormalize P d := by
  unfold pyNormalize
  exact normalizeD_idem (P - 1) (by omega) d


/-- Witness for C9 at precision 3 and the value 999 (which rounds to
`1E+3` at 2 significant digits): a second `normalize` is the identity. -/
theorem C9_normalize_idempotent_witness :
    2 ≤ 3 ∧ pyNormalize 3 (pyNormalize 3 ⟨999, 0⟩) = pyNormalize 3 ⟨999, 0⟩ :=
  ⟨by norm_num, C9_normalize_idempotent 3 (by norm_num) ⟨999, 0⟩⟩

/-! ### Lemmas about the rounded model -/

theorem zpow_ten_ne_zero (e : ℤ) : (10 : ℚ) ^ e ≠ 0 :=
  zpow_ne_zero e (by norm_num)

theorem cast_pow_toNat (m ei e : ℤ) (h : e ≤ ei) :
    ((m * 10 ^ (ei - e).toNat : ℤ) : ℚ) * (10 : ℚ) ^ e = (m : ℚ) * 10 ^ ei := by
  push_cast
  rw [← zpow_natCast (10 : ℚ) (ei - e).toNat, Int.toNat_of_nonneg (sub_nonneg.mpr h),
    mul_assoc, ← zpow_add₀ (by norm_num : (10 : ℚ) ≠ 0)]
  congr 2
  omega

theorem aligned_iff_val {m1 e1 m2 e2 : ℤ} :
    m1 * 10 ^ (e1 - min e1 e2).toNat = m2 * 10 ^ (e2 - min e1 e2).toNat ↔
      (m1 : ℚ) * 10 ^ e1 = (m2 : ℚ) * 10 ^ e2 := by
  constructor
  · intro h
    rw [← cast_pow_toNat m1 e1 (min e1 e2) (min_le_left e1 e2),
      ← cast_pow_toNat m2 e2 (min e1 e2) (min_le_right e1 e2), h]
  · intro h
    have h1 := cast_pow_toNat m1 e1 (min e1 e2) (min_le_left e1 e2)
    have h2 := cast_pow_toNat m2 e2 (min e1 e2) (min_le_right e1 e2)
    have hq : ((m1 * 10 ^ (e1 - min e1 e2).toNat : ℤ) : ℚ) * 10 ^ (min e1 e2) =
        ((m2 * 10 ^ (e2 - min e1 e2).toNat : ℤ) : ℚ) * 10 ^ (min e1 e2) := by
      rw [h1, h2, h]
    have hc := mul_right_cancel₀ (zpow_ten_ne_zero (min e1 e2)) hq
    exact_mod_cast hc

theorem rdEq_num_iff {m1 e1 m2 e2 : ℤ} :
    rdEq (.num m1 e1) (.num m2 e2) = true ↔
      (m1 : ℚ) * 10 ^ e1 = (m2 : ℚ) * 10 ^ e2 := by
  unfold rdEq
  rw [beq_iff_eq]
  exact aligned_iff_val

theorem rdEq_symm (a b : RD) : rdEq a b = rdEq b a := by
  cases a with
  | nan => cases b <;> rfl
  | num m1 e1 =>
    cases b with
    | nan => rfl
    | num m2 e2 =>
      by_cases h : rdEq (RD.num m1 e1) (RD.num m2 e2) = true
      · have h2 : rdEq (RD.num m2 e2) (RD.num m1 e1) = true :=
          rdEq_num_iff.mpr (rdEq_num_iff.mp h).symm
        rw [h, h2]
      · have hval : ¬(m1 : ℚ) * 10 ^ e1 = (m2 : ℚ) * 10 ^ e2 := fun hv =>
          h (rdEq_num_iff.mpr hv)
        have h2 : ¬rdEq (RD.num m2 e2) (RD.num m1 e1) = true := fun hv =>
          hval (rdEq_num_iff.mp hv).symm
        rw [Bool.not_eq_true] at h h2
        rw [h, h2]

theorem rPointEq_symm {P : Nat} {p q : RPoint} (h : rPointEq P p q = true) :
    rPointEq P q p = true := by
  simp only [rPointEq, rdNormEq, Bool.and_eq_true] at h ⊢
  rw [rdEq_symm (rdNorm P q.x), rdEq_symm (rdNorm P q.y)]
  exact h

theorem dlenAux_spec : ∀ fuel n, n ≤ fuel → n ≠ 0 →
    10 ^ (dlenAux fuel n - 1) ≤ n ∧ n < 10 ^ dlenAux fuel n := by
  intro fuel
  induction fuel with
  | zero => intro n hn h0; omega
  | succ f ih =>
    intro n hn h0
    unfold dlenAux
    by_cases hlt : n < 10
    · rw [if_pos hlt]
      refine ⟨by simpa using Nat.one_le_iff_ne_zero.mpr h0, by simpa using hlt⟩
    · rw [if_neg hlt]
      have hd : n / 10 ≤ f := by omega
      have hd0 : n / 10 ≠ 0 := by omega
      rcases ih (n / 10) hd hd0 with ⟨h1, h2⟩
      set d := dlenAux f (n / 10) with hdd
      have hdpos : 1 ≤ d := by
        rcases Nat.eq_zero_or_pos d with h | h
        · rw [h] at h2; omega
        · exact h
      constructor
      · have : 10 ^ d = 10 * 10 ^ (d - 1) := by
          rw [← pow_succ']
          congr 1
          omega
        calc 10 ^ (d + 1 - 1) = 10 * 10 ^ (d - 1) := by rw [Nat.add_sub_cancel, this]
        _ ≤ 10 * (n / 10) := by omega
        _ ≤ n := Nat.mul_div_le n 10
      · calc n < 10 * (n / 10) + 10 := by omega
        _ ≤ 10 * 10 ^ d := by omega
        _ = 10 ^ (d + 1) := (pow_succ' 10 d).symm

theorem digitLen_spec {n : Nat} (h0 : n ≠ 0) :
    10 ^ (digitLen n - 1) ≤ n ∧ n < 10 ^ digitLen n :=
  dlenAux_spec n n (le_refl n) h0

theorem roundMant_shape (P : Nat) (m e : Int) :
    ∃ m2 e2, roundMant P m e = .num m2 e2 := by
  unfold roundMant
  by_cases h : m.natAbs < 10 ^ P
  · exact ⟨m, e, by rw [if_pos h]⟩
  · exact ⟨_, _, by rw [if_neg h]⟩

theorem roundMant_isNan (P : Nat) (m e : Int) :
    rdIsNan (roundMant P m e) = false := by
  rcases roundMant_shape P m e with ⟨m2, e2, h⟩
  rw [h]
  rfl

theorem roundHalfEvenNat_ge (n t : Nat) : n / t ≤ roundHalfEvenNat n t := by
  unfold roundHalfEvenNat
  split_ifs <;> omega

theorem roundMant_mantissa_zero (P : Nat) (hP : 1 ≤ P) (m e m2 e2 : Int)
    (h : roundMant P m e = .num m2 e2) : m2 = 0 ↔ m = 0 := by
  unfold roundMant at h
  by_cases hlt : m.natAbs < 10 ^ P
  · rw [if_pos hlt] at h
    cases h
    rfl
  · rw [if_neg hlt] at h
    simp only [RD.num.injEq] at h
    have hm0 : m ≠ 0 := by
      intro hz
      rw [hz] at hlt
      simp only [Int.natAbs_zero] at hlt
      exact hlt (pow_pos (by norm_num) P)
    have hnn : m.natAbs ≠ 0 := Int.natAbs_ne_zero.mpr hm0
    have hge : 10 ^ P ≤ m.natAbs := Nat.le_of_not_lt hlt
    rcases digitLen_spec hnn with ⟨hd1, hd2⟩
    have hk : 10 ^ (digitLen m.natAbs - P) ≤ m.natAbs := by
      calc 10 ^ (digitLen m.natAbs - P) ≤ 10 ^ (digitLen m.natAbs - 1) := by
            apply Nat.pow_le_pow_right (by norm_num)
            have : P ≤ digitLen m.natAbs := by
              by_contra hc
              push_neg at hc
              have : m.natAbs < 10 ^ P :=
                lt_of_lt_of_le hd2 (Nat.pow_le_pow_right (by norm_num) (by omega))
              omega
            omega
      _ ≤ m.natAbs := hd1
    have hq : 1 ≤ m.natAbs / 10 ^ (digitLen m.natAbs - P) :=
      (Nat.one_le_div_iff (Nat.pos_pow_of_pos _ (by norm_num))).mpr hk
    have hr := roundHalfEvenNat_ge m.natAbs (10 ^ (digitLen m.natAbs - P))
    have hm2 : m2 ≠ 0 := by
      rw [← h.1]
      intro hz
      rcases mul_eq_zero.mp hz with hs | hv
      · rw [Int.sign_eq_zero_iff_zero] at hs
        exact hm0 hs
      · rw [Int.natCast_eq_zero] at hv
        omega
    constructor
    · intro hz
      exact absurd hz hm2
    · intro hz
      exact absurd hz hm0

theorem rdSub_shape (P : Nat) (m1 e1 m2 e2 : Int) :
    ∃ m e, rdSub P (.num m1 e1) (.num m2 e2) = .num m e := by
  unfold rdSub
  exact roundMant_shape P _ _

theorem rdSub_eq_zero_iff (P : Nat) (hP : 1 ≤ P) (m1 e1 m2 e2 : Int) :
    rdEq (rdSub P (.num m1 e1) (.num m2 e2)) (.num 0 0) = true ↔
      (m1 : ℚ) * 10 ^ e1 = (m2 : ℚ) * 10 ^ e2 := by
  have hsub : rdSub P (.num m1 e1) (.num m2 e2) =
      roundMant P (m1 * 10 ^ (e1 - min e1 e2).toNat - m2 * 10 ^ (e2 - min e1 e2).toNat)
        (min e1 e2) := rfl
  rcases roundMant_shape P
      (m1 * 10 ^ (e1 - min e1 e2).toNat - m2 * 10 ^ (e2 - min e1 e2).toNat)
      (min e1 e2) with ⟨m, e, h⟩
  have hz := roundMant_mantissa_zero P hP _ _ _ _ h
  rw [hsub, h, rdEq_num_iff]
  constructor
  · intro hv
    have hm0 : (m : ℚ) = 0 := by
      have h10 := zpow_ten_ne_zero e
      rcases mul_eq_zero.mp (by rw [hv]; norm_num : (m : ℚ) * 10 ^ e = 0) with hq | hq
      · exact hq
      · exact absurd hq h10
    have hmz : m = 0 := by exact_mod_cast hm0
    have hdz := hz.mp hmz
    exact aligned_iff_val.mp (sub_eq_zero.mp hdz)
  · intro hv
    have hdz : m1 * 10 ^ (e1 - min e1 e2).toNat - m2 * 10 ^ (e2 - min e1 e2).toNat = 0 :=
      sub_eq_zero.mpr (aligned_iff_val.mpr hv)
    rw [hz.mpr hdz]
    norm_num


/-! ### Claim C1 — folding under a true symmetry line, with rounding -/

theorem rIsSymmetryLine_true_iff {P : Nat} {L : RLine} {pts : List RPoint} :
    rIsSymmetryLine P L pts = true ↔
      ∀ p ∈ pts, rPointEq P (rFoldedPoint P L p) p = true ∨
        ∃ q ∈ pts, rPointEq P q (rFoldedPoint P L p) = true := by
  simp [rIsSymmetryLine, List.all_eq_true, List.any_eq_true]

/-- C1 amended: a line classified true folds every listed point onto some
listed point (forward inclusion of the folded set in the point set). -/
theorem C1_true_line_folds_into_set (P : Nat) (L : RLine) (pts : List RPoint)
    (hsym : rIsSymmetryLine P L pts = true) :
    ∀ p ∈ pts, ∃ q ∈ pts, rPointEq P (rFoldedPoint P L p) q = true := by
  intro p hp
  rcases rIsSymmetryLine_true_iff.mp hsym p hp with h | ⟨q, hq, hqf⟩
  · exact ⟨p, hp, h⟩
  · exact ⟨q, hq, rPointEq_symm hqf⟩

/-- C1 counterexample: at precision 5, the vertical line x = 1000000 is
classified a symmetry line of the pairwise-distinct set
{(0,0), (1.0,0), (1.4,0), (2000000,0)}, yet no point of the set folds
onto (1.0, 0): folding is not injective at finite precision (the folds of
1.0 and 1.4 both round to 2.0000E+6), so the folded set is strictly
smaller than the point set. -/
theorem C1_counterexample_rounding_collision :
    c1Pts.Pairwise (fun p q => rPointEq 5 p q = false) ∧
    rIsSymmetryLine 5 ⟨.nan, .nan, .num 1000000 0⟩ c1Pts = true ∧
    (⟨.num 10 (-1), .num 0 0⟩ : RPoint) ∈ c1Pts ∧
    c1Pts.all (fun p => !rPointEq 5 (rFoldedPoint 5 ⟨.nan, .nan, .num 1000000 0⟩ p)
      ⟨.num 10 (-1), .num 0 0⟩) = true := by
  refine ⟨?_, by decide, by decide, by decide⟩
  decide

/-- Witness for C1 amended on the right-triangle scenario at precision 28
(the default context), where the diagonal y = x is a symmetry line. -/
theorem C1_true_line_folds_into_set_witness :
    rIsSymmetryLine 28 ⟨.num 1 0, .num 0 0, .nan⟩ triPts = true ∧
    (∀ p ∈ triPts, ∃ q ∈ triPts,
      rPointEq 28 (rFoldedPoint 28 ⟨.num 1 0, .num 0 0, .nan⟩ p) q = true) :=
  ⟨by decide, C1_true_line_folds_into_set 28 ⟨.num 1 0, .num 0 0, .nan⟩ triPts (by decide)⟩

/-! ### Claim C10 — vertical lines and the points on them, with rounding -/

theorem rdAdd_num (P : Nat) (m1 e1 m2 e2 : Int) :
    rdAdd P (.num m1 e1) (.num m2 e2) =
      roundMant P (m1 * 10 ^ (e1 - min e1 e2).toNat + m2 * 10 ^ (e2 - min e1 e2).toNat)
        (min e1 e2) := rfl

theorem rdMul_num (P : Nat) (m1 e1 m2 e2 : Int) :
    rdMul P (.num m1 e1) (.num m2 e2) = roundMant P (m1 * m2) (e1 + e2) := rfl

theorem rdAdd_shape (P : Nat) (m1 e1 m2 e2 : Int) :
    ∃ m e, rdAdd P (.num m1 e1) (.num m2 e2) = .num m e := by
  rw [rdAdd_num]
  exact roundMant_shape P _ _

theorem rdMul_shape (P : Nat) (m1 e1 m2 e2 : Int) :
    ∃ m e, rdMul P (.num m1 e1) (.num m2 e2) = .num m e := by
  rw [rdMul_num]
  exact roundMant_shape P _ _

theorem rdVal_num (m e : Int) : rdVal (.num m e) = (m : ℚ) * 10 ^ e := rfl

/-- C5 amended: for finite points with distinct x, the round-trip holds
whenever the Decimal operations involved incur no rounding: the produced
slope satisfies the exact slope equation, the produced intercept is the
exact intercept, and the product/sum on each contains_point evaluation
are exact.  (The hypotheses hold e.g. when all quantities are exactly
representable within the working precision; they fail in general — see
the counterexample.) -/
theorem C5_round_trip_when_exact (P : Nat) (p0 p1 : RPoint)
    (mA eA mB eB mC eC mD eD ms es mi ei : Int)
    (hA : p0.x = .num mA eA) (hB : p0.y = .num mB eB)
    (hC : p1.x = .num mC eC) (hD : p1.y = .num mD eD)
    (hL : rFromPoints P p0 p1 = ⟨.num ms es, .num mi ei, .nan⟩)
    (hs : (ms : ℚ) * 10 ^ es * ((mC : ℚ) * 10 ^ eC - (mA : ℚ) * 10 ^ eA) =
      (mD : ℚ) * 10 ^ eD - (mB : ℚ) * 10 ^ eB)
    (hi : (mi : ℚ) * 10 ^ ei =
      (mD : ℚ) * 10 ^ eD - (ms : ℚ) * 10 ^ es * ((mC : ℚ) * 10 ^ eC))
    (hm0 : rdVal (rdMul P p0.x (.num ms es)) = rdVal p0.x * ((ms : ℚ) * 10 ^ es))
    (ha0 : rdVal (rdAdd P (rdMul P p0.x (.num ms es)) (.num mi ei)) =
      rdVal (rdMul P p0.x (.num ms es)) + (mi : ℚ) * 10 ^ ei)
    (hm1 : rdVal (rdMul P p1.x (.num ms es)) = rdVal p1.x * ((ms : ℚ) * 10 ^ es))
    (ha1 : rdVal (rdAdd P (rdMul P p1.x (.num ms es)) (.num mi ei)) =
      rdVal (rdMul P p1.x (.num ms es)) + (mi : ℚ) * 10 ^ ei) :
    rContainsPoint P (rFromPoints P p0 p1) p0 = true ∧
    rContainsPoint P (rFromPoints P p0 p1) p1 = true := by
  rw [hL]
  unfold rContainsPoint
  constructor
  · have hmul : ∃ m e, rdMul P p0.x (.num ms es) = .num m e := by
      rw [hA]
      exact rdMul_shape P _ _ _ _
    rcases hmul with ⟨mp, ep, hp⟩
    rcases rdAdd_shape P mp ep mi ei with ⟨mz, ez, hz⟩
    rw [hB, hp, hz, rdEq_num_iff]
    have h1 : (mz : ℚ) * 10 ^ ez = rdVal (rdAdd P (.num mp ep) (.num mi ei)) := by
      rw [hz, rdVal_num]
    rw [h1, ← hp, ha0, hm0, hA, rdVal_num, hi]
    linear_combination hs
  · have hmul : ∃ m e, rdMul P p1.x (.num ms es) = .num m e := by
      rw [hC]
      exact rdMul_shape P _ _ _ _
    rcases hmul with ⟨mp, ep, hp⟩
    rcases rdAdd_shape P mp ep mi ei with ⟨mz, ez, hz⟩
    rw [hD, hp, hz, rdEq_num_iff]
    have h1 : (mz : ℚ) * 10 ^ ez = rdVal (rdAdd P (.num mp ep) (.num mi ei)) := by
      rw [hz, rdVal_num]
    rw [h1, ← hp, ha1, hm1, hC, rdVal_num, hi]
    ring

/-- C5 counterexample: at precision 12, the round-trip fails both for the
vertically aligned pair (0,0),(0,1) — `contains_point` only checks the
sloped equation and is false on vertical lines — and for the non-vertical
pair (0,0),(3,1), where the rounded slope 0.333333333333 makes the
computed intercept 1E-12 and `contains_point((0,0))` compares
0 == 1E-12 with raw Decimal equality, giving False. -/
theorem C5_counterexample_round_trip_fails :
    (rPointEq 12 (⟨.num 0 0, .num 0 0⟩ : RPoint) ⟨.num 0 0, .num 1 0⟩ = false ∧
     rContainsPoint 12 (rFromPoints 12 ⟨.num 0 0, .num 0 0⟩ ⟨.num 0 0, .num 1 0⟩)
       ⟨.num 0 0, .num 0 0⟩ = false ∧
     rContainsPoint 12 (rFromPoints 12 ⟨.num 0 0, .num 0 0⟩ ⟨.num 0 0, .num 1 0⟩)
       ⟨.num 0 0, .num 1 0⟩ = false) ∧
    (rdEq (⟨.num 0 0, .num 0 0⟩ : RPoint).x (⟨.num 3 0, .num 1 0⟩ : RPoint).x = false ∧
     rFromPoints 12 ⟨.num 0 0, .num 0 0⟩ ⟨.num 3 0, .num 1 0⟩ =
       ⟨.num 333333333333 (-12), .num 1 (-12), .nan⟩ ∧
     rContainsPoint 12 (rFromPoints 12 ⟨.num 0 0, .num 0 0⟩ ⟨.num 3 0, .num 1 0⟩)
       ⟨.num 0 0, .num 0 0⟩ = false) := by
  refine ⟨⟨by decide, by decide, by decide⟩, by decide, by decide, by decide⟩

/-- Witness for C5 amended at (0,0),(1,2), precision 12: slope 2 and
intercept 0 are exact, and both defining points pass `contains_point`. -/
theorem C5_round_trip_when_exact_witness :
    rContainsPoint 12 (rFromPoints 12 ⟨.num 0 0, .num 0 0⟩ ⟨.num 1 0, .num 2 0⟩)
      ⟨.num 0 0, .num 0 0⟩ = true ∧
    rContainsPoint 12 (rFromPoints 12 ⟨.num 0 0, .num 0 0⟩ ⟨.num 1 0, .num 2 0⟩)
      ⟨.num 1 0, .num 2 0⟩ = true := by
  refine C5_round_trip_when_exact 12 ⟨.num 0 0, .num 0 0⟩ ⟨.num 1 0, .num 2 0⟩
    0 0 0 0 1 0 2 0 200000000000 (-11) 0 (-11) rfl rfl rfl rfl (by decide)
    ?_ ?_ ?_ ?_ ?_ ?_
  · norm_num
  · norm_num
  · have h1 : rdMul 12 (RD.num 0 0) (RD.num 200000000000 (-11)) = RD.num 0 (-11) := by decide
    rw [h1, rdVal_num, rdVal_num]
    norm_num
  · have h1 : rdMul 12 (RD.num 0 0) (RD.num 200000000000 (-11)) = RD.num 0 (-11) := by decide
    have h2 : rdAdd 12 (RD.num 0 (-11)) (RD.num 0 (-11)) = RD.num 0 (-11) := by decide
    rw [h1, h2]
    norm_num [rdVal_num]
  · have h1 : rdMul 12 (RD.num 1 0) (RD.num 200000000000 (-11)) = RD.num 200000000000 (-11) := by
      decide
    rw [h1, rdVal_num, rdVal_num]
    norm_num
  · have h1 : rdMul 12 (RD.num 1 0) (RD.num 200000000000 (-11)) = RD.num 200000000000 (-11) := by
      decide
    have h2 : rdAdd 12 (RD.num 200000000000 (-11)) (RD.num 0 (-11)) =
        RD.num 200000000000 (-11) := by decide
    rw [h1, h2]
    norm_num [rdVal_num]


/-! ### Claim C7 — found lines and the centroid, with rounding -/

theorem rdSub_num (P : Nat) (m1 e1 m2 e2 : Int) :
    rdSub P (.num m1 e1) (.num m2 e2) =
      roundMant P (m1 * 10 ^ (e1 - min e1 e2).toNat - m2 * 10 ^ (e2 - min e1 e2).toNat)
        (min e1 e2) := rfl

theorem rdAdd_isNan {P : Nat} {a b : RD} (ha : rdIsNan a = false)
    (hb : rdIsNan b = false) : rdIsNan (rdAdd P a b) = false := by
  cases a with
  | nan => simp [rdIsNan] at ha
  | num m1 e1 =>
    cases b with
    | nan => simp [rdIsNan] at hb
    | num m2 e2 =>
      rw [rdAdd_num]
      exact roundMant_isNan P _ _

theorem rdSub_isNan {P : Nat} {a b : RD} (ha : rdIsNan a = false)
    (hb : rdIsNan b = false) : rdIsNan (rdSub P a b) = false := by
  cases a with
  | nan => simp [rdIsNan] at ha
  | num m1 e1 =>
    cases b with
    | nan => simp [rdIsNan] at hb
    | num m2 e2 =>
      rw [rdSub_num]
      exact roundMant_isNan P _ _

theorem rdDiv_shape (P : Nat) (m1 e1 m2 e2 : Int) (h2 : m2 ≠ 0) :
    ∃ m e, rdDiv P (.num m1 e1) (.num m2 e2) = .num m e := by
  simp only [rdDiv]
  rw [if_neg h2]
  by_cases h1 : m1 = 0
  · rw [if_pos h1]
    exact ⟨0, 0, rfl⟩
  · rw [if_neg h1]
    exact ⟨_, _, rfl⟩

theorem rdSum_isNan {P : Nat} {l : List RD} (hfin : ∀ d ∈ l, rdIsNan d = false) :
    rdIsNan (rdSum P l) = false := by
  suffices h : ∀ acc : RD, rdIsNan acc = false → rdIsNan (l.foldl (rdAdd P) acc) = false by
    exact h (.num 0 0) rfl
  induction l with
  | nil => intro acc hacc; exact hacc
  | cons d rest ih =>
    intro acc hacc
    have hd := hfin d (List.mem_cons_self d rest)
    have hrest : ∀ e ∈ rest, rdIsNan e = false := fun e he =>
      hfin e (List.mem_cons_of_mem d he)
    exact ih hrest (rdAdd P acc d) (rdAdd_isNan hacc hd)

theorem rdDiv_isNan {P : Nat} {a : RD} {m2 e2 : Int} (ha : rdIsNan a = false)
    (h2 : m2 ≠ 0) : rdIsNan (rdDiv P a (.num m2 e2)) = false := by
  cases a with
  | nan => simp [rdIsNan] at ha
  | num m1 e1 =>
    rcases rdDiv_shape P m1 e1 m2 e2 h2 with ⟨m, e, h⟩
    rw [h]
    rfl

theorem rCentroid_isNan {P : Nat} {pts : List RPoint} (hne : pts ≠ [])
    (hfin : ∀ p ∈ pts, rdIsNan p.x = false ∧ rdIsNan p.y = false) :
    rdIsNan (rCentroid P pts).x = false ∧ rdIsNan (rCentroid P pts).y = false := by
  have hlen : (pts.length : Int) ≠ 0 := by
    simp only [ne_eq, Int.natCast_eq_zero]
    intro h
    exact hne (List.length_eq_zero.mp h)
  constructor
  · exact rdDiv_isNan (rdSum_isNan (by
      intro d hd
      rcases List.mem_map.mp hd with ⟨p, hp, hdp⟩
      exact hdp ▸ (hfin p hp).1)) hlen
  · exact rdDiv_isNan (rdSum_isNan (by
      intro d hd
      rcases List.mem_map.mp hd with ⟨p, hp, hdp⟩
      exact hdp ▸ (hfin p hp).2)) hlen

theorem rBisectionPoint_isNan {P : Nat} {p q : RPoint}
    (hp : rdIsNan p.x = false ∧ rdIsNan p.y = false)
    (hq : rdIsNan q.x = false ∧ rdIsNan q.y = false) :
    rdIsNan (rBisectionPoint P p q).x = false ∧
      rdIsNan (rBisectionPoint P p q).y = false := by
  constructor
  · exact rdAdd_isNan (rdDiv_isNan (rdSub_isNan hq.1 hp.1) (by norm_num)) hp.1
  · exact rdAdd_isNan (rdDiv_isNan (rdSub_isNan hq.2 hp.2) (by norm_num)) hp.2

theorem mem_upperPairs {l : List α} {pq : α × α} (h : pq ∈ upperPairs l) :
    pq.1 ∈ l ∧ pq.2 ∈ l := by
  induction l with
  | nil => simp [upperPairs] at h
  | cons a rest ih =>
    unfold upperPairs at h
    rcases List.mem_append.mp h with h1 | h1
    · rcases List.mem_map.mp h1 with ⟨q, hq, hpq⟩
      subst hpq
      exact ⟨List.mem_cons_self a rest, List.mem_cons_of_mem a hq⟩
    · rcases ih h1 with ⟨h2, h3⟩
      exact ⟨List.mem_cons_of_mem a h2, List.mem_cons_of_mem a h3⟩

theorem rFromPoints_cases (P : Nat) (p0 p1 : RPoint) :
    (rdEq (rdSub P p1.x p0.x) (.num 0 0) = true ∧
      rFromPoints P p0 p1 = ⟨.nan, .nan, p1.x⟩) ∨
    (rdEq (rdSub P p1.x p0.x) (.num 0 0) = false ∧
      rFromPoints P p0 p1 =
        ⟨rdDiv P (rdSub P p1.y p0.y) (rdSub P p1.x p0.x),
         rdSub P p1.y (rdMul P (rdDiv P (rdSub P p1.y p0.y) (rdSub P p1.x p0.x)) p1.x),
         .nan⟩) := by
  by_cases h : rdEq (rdSub P p1.x p0.x) (.num 0 0) = true
  · left
    refine ⟨h, ?_⟩
    simp only [rFromPoints, h, Bool.not_true, Bool.false_eq_true, if_false]
  · right
    rw [Bool.not_eq_true] at h
    refine ⟨h, ?_⟩
    simp only [rFromPoints, h, Bool.not_false, if_true]

theorem rMem_find_iff {P : Nat} {pts : List RPoint} {L : RLine} :
    L ∈ rFind P pts ↔
      L ∈ rCandidateSymmetryLines P pts ∧ rIsSymmetryLine P L pts = true := by
  simp only [rFind, rFindAll, List.mem_map, List.mem_filter]
  constructor
  · rintro ⟨⟨b, M⟩, ⟨hmem, hb⟩, rfl⟩
    rcases hmem with ⟨N, hN, hNM⟩
    cases hNM
    exact ⟨hN, hb⟩
  · rintro ⟨hmem, hsym⟩
    refine ⟨(true, L), ⟨⟨L, hmem, ?_⟩, rfl⟩, rfl⟩
    rw [hsym]

/-- C7 amended: every line yielded by `find()` is built by
`from_points(centroid, r)` — it passes through the centroid by
construction — and in the vertical case its stored x equals `centroid.x`
as an exact Decimal equality.  The raw `==` check
`contains_point(centroid)` of non-vertical found lines, by contrast, can
fail under context rounding (see the counterexample). -/
theorem C7_found_lines_through_centroid (P : Nat) (hP : 1 ≤ P) (pts : List RPoint)
    (hfin : ∀ p ∈ pts, rdIsNan p.x = false ∧ rdIsNan p.y = false) :
    ∀ L ∈ rFind P pts,
      (∃ r, L = rFromPoints P (rCentroid P pts) r) ∧
      (rIsVertical L = true → rdEq L.x (rCentroid P pts).x = true) := by
  intro L hL
  rcases rMem_find_iff.mp hL with ⟨hcand, _⟩
  unfold rCandidateSymmetryLines at hcand
  by_cases hlen : pts.length < 3
  · rw [if_pos hlen] at hcand
    simp at hcand
  · rw [if_neg hlen] at hcand
    have hmem := dedupAcc_subset (rLineEq P) [] _ L hcand
    have hne : pts ≠ [] := by
      intro h
      rw [h] at hlen
      simp at hlen
    have hcent := rCentroid_isNan (P := P) hne hfin
    have hr : ∃ r : RPoint, L = rFromPoints P (rCentroid P pts) r ∧
        rdIsNan r.x = false ∧ rdIsNan r.y = false := by
      rcases List.mem_append.mp hmem with h1 | h1
      · rcases List.mem_map.mp h1 with ⟨pq, hpq, hLpq⟩
        rcases mem_upperPairs hpq with ⟨hp1, hp2⟩
        exact ⟨rBisectionPoint P pq.1 pq.2, hLpq.symm,
          rBisectionPoint_isNan (hfin _ hp1) (hfin _ hp2)⟩
      · rcases List.mem_map.mp h1 with ⟨p, hp, hLp⟩
        exact ⟨p, hLp.symm, hfin p hp⟩
    rcases hr with ⟨r, hLr, hrx, hry⟩
    refine ⟨⟨r, hLr⟩, ?_⟩
    intro hv
    rcases hx : (rCentroid P pts).x with _ | ⟨ma, ea⟩
    · rw [hx] at hcent
      simp [rdIsNan] at hcent
    · rcases hrx2 : r.x with _ | ⟨mc, ec⟩
      · rw [hrx2] at hrx
        simp [rdIsNan] at hrx
      · rcases rFromPoints_cases P (rCentroid P pts) r with ⟨hz, hform⟩ | ⟨hz, hform⟩
        · have hgoal : L.x = RD.num mc ec := by
            rw [hLr, hform]
            exact hrx2
          rw [hgoal, rdEq_num_iff]
          rw [hrx2, hx] at hz
          exact (rdSub_eq_zero_iff P hP mc ec ma ea).mp hz
        · exfalso
          rw [hrx2, hx] at hz
          have hdiff : ∃ md ed, rdSub P (.num mc ec) (.num ma ea) = .num md ed :=
            rdSub_shape P mc ec ma ea
          rcases hdiff with ⟨md, ed, hd⟩
          have hmd : md ≠ 0 := by
            intro h0
            rw [hd, h0] at hz
            have : rdEq (RD.num 0 ed) (RD.num 0 0) = true := by
              rw [rdEq_num_iff]
              norm_num
            rw [this] at hz
            exact absurd hz (by simp)
          have hyc : rdIsNan (rdSub P r.y (rCentroid P pts).y) = false :=
            rdSub_isNan hry hcent.2
          have hslope : rdIsNan (rdDiv P (rdSub P r.y (rCentroid P pts).y)
              (rdSub P r.x (rCentroid P pts).x)) = false := by
            rw [hrx2, hx, hd]
            cases hyy : rdSub P r.y (rCentroid P pts).y with
            | nan => rw [hyy] at hyc; simp [rdIsNan] at hyc
            | num my ey =>
              rcases rdDiv_shape P my ey md ed hmd with ⟨m, e, h⟩
              rw [h]
              rfl
          have hint : rdIsNan (rdSub P r.y
              (rdMul P (rdDiv P (rdSub P r.y (rCentroid P pts).y)
                (rdSub P r.x (rCentroid P pts).x)) r.x)) = false := by
            apply rdSub_isNan hry
            cases hss : rdDiv P (rdSub P r.y (rCentroid P pts).y)
                (rdSub P r.x (rCentroid P pts).x) with
            | nan => rw [hss] at hslope; simp [rdIsNan] at hslope
            | num m e =>
              cases hxx : r.x with
              | nan => rw [hxx] at hrx; simp [rdIsNan] at hrx
              | num mx ex =>
                rcases rdMul_shape P m e mx ex with ⟨mm, ee, hmm⟩
                rw [hmm]
                rfl
          rw [hLr, hform] at hv
          unfold rIsVertical at hv
          simp only at hv
          rw [Bool.or_eq_true] at hv
          rcases hv with hv | hv
          · rw [hslope] at hv
            exact absurd hv (by simp)
          · rw [hint] at hv
            exact absurd hv (by simp)

/-- C7 counterexample: at precision 12, for the square
{(3,1), (-3,-1), (1,-3), (-1,3)} (centroid (0,0)), `find()` yields the
non-vertical line slope=0.333333333333, intercept=1E-12, whose
`contains_point(centroid)` is False: the raw == comparison sees the
1E-12 rounding residue in the intercept. -/
theorem C7_counterexample_rounded_containment :
    (⟨.num 333333333333 (-12), .num 1 (-12), .nan⟩ : RLine) ∈ rFind 12 sqPts ∧
    rIsVertical ⟨.num 333333333333 (-12), .num 1 (-12), .nan⟩ = false ∧
    rCentroid 12 sqPts = ⟨.num 0 0, .num 0 0⟩ ∧
    rContainsPoint 12 ⟨.num 333333333333 (-12), .num 1 (-12), .nan⟩
      (rCentroid 12 sqPts) = false := by
  refine ⟨by decide, by decide, by decide, by decide⟩

/-- Witness for C7 amended on the right-triangle scenario at precision 28. -/
theorem C7_found_lines_through_centroid_witness :
    (∀ p ∈ triPts, rdIsNan p.x = false ∧ rdIsNan p.y = false) ∧
    (∀ L ∈ rFind 28 triPts,
      (∃ r, L = rFromPoints 28 (rCentroid 28 triPts) r) ∧
      (rIsVertical L = true → rdEq L.x (rCentroid 28 triPts).x = true)) :=
  ⟨by decide, C7_found_lines_through_centroid 28 (by norm_num) triPts (by decide)⟩

end Symmetry
